import Mathlib

/-!
Verification of the basar ISF banner-cache manager (Go) against its
natural-language specification.

The Go source is shallowly embedded:
* `fetcher.Merge` / `fetcher.appendUnique` become pure list functions
  (`Merge`, `appendUnique`); Go's `map[string][]string` is modelled as an
  association list with the map's per-key semantics (lookup of a missing
  key yields the nil slice, i.e. `[]`; assignment replaces the entry);
* `fetcher.fetchHTTPWithMeta` becomes a pure function from the prior
  validators and an abstract HTTP response to the Go function's 4-tuple
  result;
* the `cache.Cache` methods become state transformers over `CacheState`,
  a record of the three files the cache controller owns (primary
  artifact, metadata sidecar, lock file), with wall-clock time passed in
  explicitly (integer seconds) and fetch outcomes supplied as an oracle
  list of per-source results (the network is outside the model);
* `encoding/json` unmarshalling into `fetcher.BannerData` is modelled by
  `unmarshalBannerData` over an abstract JSON value type (`Json`),
  following Go semantics: `null` is a no-op that keeps zero values,
  unknown object fields are ignored, mismatched types are errors.

File-system errors other than "file absent" are outside the model (reads
and writes of existing paths succeed), as are byte-level JSON texts: a
file's content is `Option Json`, `none` meaning bytes that do not parse
as JSON.
-/

namespace Basar

/-! ## Merger (src/internal/fetcher/fetcher.go, `appendUnique` and `Merge`) -/

/-- Go `appendUnique(existing, new)`: appends items of `new` to `existing`,
skipping items already present.  The Go `seen` set always holds exactly the
elements of the result built so far, so membership in the accumulated list
is the faithful translation. -/
def appendUnique : List String → List String → List String
  | existing, [] => existing
  | existing, v :: vs =>
    if v ∈ existing then appendUnique existing vs
    else appendUnique (existing ++ [v]) vs

/-- The elements `appendUnique` actually appends: first occurrences of
elements of the second list that are not in the accumulator. -/
def newOnes : List String → List String → List String
  | _, [] => []
  | acc, v :: vs => if v ∈ acc then newOnes acc vs else v :: newOnes (acc ++ [v]) vs

/-- Go `BannerData`: the volatility3 ISF banner document.  The Go map
`Linux map[string][]string` is an association list here. -/
structure BannerData where
  version : Int
  linux : List (String × List String)
deriving DecidableEq

/-- Reading `m[b]` from the modelled Go map: first matching entry, or the
nil slice (`[]`) when the key is absent. -/
def lookupBanner : List (String × List String) → String → List String
  | [], _ => []
  | p :: ps, b => if p.1 = b then p.2 else lookupBanner ps b

/-- Writing `m[b] = v` into the modelled Go map: replace the entry if the
key is present, otherwise append a new entry. -/
def setBanner : List (String × List String) → String → List String → List (String × List String)
  | [], k, v => [(k, v)]
  | p :: ps, k, v => if p.1 = k then (k, v) :: ps else p :: setBanner ps k v

/-- One iteration of `Merge`'s inner loop:
`merged.Linux[banner] = appendUnique(merged.Linux[banner], urls)`. -/
def mergeStep (m : List (String × List String)) (p : String × List String) :
    List (String × List String) :=
  setBanner m p.1 (appendUnique (lookupBanner m p.1) p.2)

/-- One iteration of `Merge`'s outer loop over `datasets`; a `nil` dataset
is skipped (`continue`). -/
def mergeInto (m : List (String × List String)) : Option BannerData → List (String × List String)
  | none => m
  | some d => d.linux.foldl mergeStep m

/-- Go `Merge(datasets)`: combines the datasets into one document with
`Version` fixed at 1, deduplicating URLs per banner. -/
def Merge (datasets : List (Option BannerData)) : BannerData :=
  ⟨1, datasets.foldl mergeInto []⟩

/-- All banner pairs of the non-nil datasets, in input order. -/
def pairsOf : List (Option BannerData) → List (String × List String)
  | [] => []
  | none :: ds => pairsOf ds
  | some d :: ds => d.linux ++ pairsOf ds

/-- The URLs a pair list supplies for banner `b`, in order. -/
def entriesFor : List (String × List String) → String → List String
  | [], _ => []
  | p :: ps, b => (if p.1 = b then p.2 else []) ++ entriesFor ps b

/-! ## JSON model (Go `encoding/json` unmarshalling into `BannerData`) -/

/-- Abstract JSON value.  A file's bytes are modelled as `Option Json`,
`none` standing for bytes that are not valid JSON at all. -/
inductive Json where
  | null
  | bool (b : Bool)
  | num (n : Int)
  | str (s : String)
  | arr (elems : List Json)
  | obj (fields : List (String × Json))

/-- Unmarshal a JSON array's elements into Go `[]string` elements: strings
are taken verbatim, `null` is a no-op on the zero value `""`, anything
else is a type error. -/
def unmarshalURLList : List Json → Option (List String)
  | [] => some []
  | Json.str s :: rest => (unmarshalURLList rest).map (fun r => s :: r)
  | Json.null :: rest => (unmarshalURLList rest).map (fun r => "" :: r)
  | _ => none

/-- Unmarshal one value of the `linux` object into a Go `[]string`:
`null` yields the nil slice, an array is unmarshalled element-wise,
anything else is a type error. -/
def unmarshalURLs : Json → Option (List String)
  | Json.null => some []
  | Json.arr elems => unmarshalURLList elems
  | _ => none

/-- Unmarshal the fields of the `linux` JSON object into the entries of
the Go `map[string][]string`. -/
def unmarshalLinuxEntries : List (String × Json) → Option (List (String × List String))
  | [] => some []
  | (k, v) :: rest =>
    match unmarshalURLs v, unmarshalLinuxEntries rest with
    | some urls, some r => some ((k, urls) :: r)
    | _, _ => none

/-- Apply one JSON object field to a partially decoded `BannerData`,
following Go semantics: `version` must be a number (or `null`, a no-op),
`linux` must be an object (or `null`, a no-op), unknown fields are
ignored, and a type mismatch is an error. -/
def applyField (acc : Option BannerData) (f : String × Json) : Option BannerData :=
  match acc with
  | none => none
  | some bd =>
    if f.1 = "version" then
      match f.2 with
      | Json.null => some bd
      | Json.num n => some { bd with version := n }
      | _ => none
    else if f.1 = "linux" then
      match f.2 with
      | Json.null => some bd
      | Json.obj fields => (unmarshalLinuxEntries fields).map (fun l => { bd with linux := l })
      | _ => none
    else some bd

/-- Go `json.Unmarshal(data, &banners)` for `banners fetcher.BannerData`:
`null` leaves the zero value (version 0, nil map), an object is applied
field by field onto the zero value, any other JSON value is an error. -/
def unmarshalBannerData : Json → Option BannerData
  | Json.null => some ⟨0, []⟩
  | Json.obj fields => fields.foldl applyField (some ⟨0, []⟩)
  | _ => none

/-- JSON encoding of a `BannerData`, as written by `Cache.write`. -/
def encodeBannerData (bd : BannerData) : Json :=
  Json.obj
    [("version", Json.num bd.version),
     ("linux", Json.obj (bd.linux.map (fun p => (p.1, Json.arr (p.2.map Json.str)))))]

/-! ## Source fetcher (src/internal/fetcher/fetcher.go, `fetchHTTPWithMeta`) -/

/-- Go `SourceMeta`: conditional-request validators for one source. -/
structure SourceMeta where
  etag : String
  lastModified : String
  updatedAt : Int
deriving DecidableEq

/-- The identification header value, Go constant `UserAgent`. -/
def UserAgent : String := "basar/1.0"

/-- The headers `fetchHTTPWithMeta` sets on the outgoing request:
`User-Agent` always; `If-None-Match` when a prior entity tag is non-empty;
`If-Modified-Since` when a prior last-modified string is non-empty. -/
def requestHeaders (meta : Option SourceMeta) : List (String × String) :=
  ("User-Agent", UserAgent) ::
    (match meta with
     | none => []
     | some m =>
       (if m.etag = "" then [] else [("If-None-Match", m.etag)]) ++
         (if m.lastModified = "" then [] else [("If-Modified-Since", m.lastModified)]))

/-- An HTTP response as `fetchHTTPWithMeta` observes it: status code, the
`ETag` and `Last-Modified` response headers (empty string when absent),
and the body's JSON parse (`none`: body is not valid JSON). -/
structure HttpResponse where
  status : Nat
  etag : String
  lastModified : String
  body : Option Json

/-- Failure cases of a single fetch. -/
inductive FetchErr where
  | badStatus (code : Nat)
  | decodeError
deriving DecidableEq

/-- Go `fetchHTTPWithMeta` after the transport succeeded: returns the
4-tuple `(data, newMeta, modified, err)`.  `304` echoes the caller's prior
validators with no data and no error; `200` decodes the body and extracts
fresh validators from the response headers; any other status is an
error carrying the status code. -/
def fetchHTTPWithMeta (meta : Option SourceMeta) (resp : HttpResponse) (now : Int) :
    Option BannerData × Option SourceMeta × Bool × Option FetchErr :=
  if resp.status = 304 then (none, meta, false, none)
  else if resp.status = 200 then
    match resp.body with
    | none => (none, none, false, some FetchErr.decodeError)
    | some j =>
      match unmarshalBannerData j with
      | none => (none, none, false, some FetchErr.decodeError)
      | some d => (some d, some ⟨resp.etag, resp.lastModified, now⟩, true, none)
  else (none, none, false, some (FetchErr.badStatus resp.status))

/-! ## Cache controller state (src/unnamed/part_003, package cache) -/

/-- The lock file: modification time, contents, and permission bits. -/
structure LockInfo where
  mtime : Int
  content : String
  mode : Nat
deriving DecidableEq

/-- The three files owned by the cache controller.  `primary` is the
merged artifact `banners.json` as `(mtime, parsed contents)`; `sidecar`
is `meta.json` as a source → validator association list; `lock` is the
lock file.  `none` means the file is absent. -/
structure CacheState where
  primary : Option (Int × Option Json)
  sidecar : Option (List (String × SourceMeta))
  lock : Option LockInfo

/-- Go constant `LockTimeout` (5 minutes), in seconds. -/
def lockTimeout : Int := 300

/-- Errors surfaced by the cache controller. -/
inductive CacheError where
  | locked
  | allSourcesFailed
deriving DecidableEq

/-- The freshness check on a stat of the primary artifact: the file
exists and `now - mtime < ttl`. -/
def validPrimary : Option (Int × Option Json) → Int → Int → Bool
  | none, _, _ => false
  | some (mtime, _), now, ttl => decide (now - mtime < ttl)

/-- Go `Cache.IsValid`: the primary artifact exists and its age is within
TTL.  The contents are never inspected. -/
def isValid (st : CacheState) (now ttl : Int) : Bool :=
  validPrimary st.primary now ttl

/-- Go `Stats` (the fields the model covers; `Path` and `Size` concern
path strings and byte counts outside the model). -/
structure Stats where
  valid : Bool
  entries : Nat
  ageSeconds : Int
  updatedAt : Int
deriving DecidableEq

/-- Go `Cache.Stats`: `Stats{Valid: false}` when the primary artifact is
absent or its contents fail to parse or unmarshal; otherwise the banner
count and age. -/
def statsOf (st : CacheState) (now : Int) : Stats :=
  match st.primary with
  | none => ⟨false, 0, 0, 0⟩
  | some (mtime, content) =>
    match content with
    | none => ⟨false, 0, 0, 0⟩
    | some j =>
      match unmarshalBannerData j with
      | none => ⟨false, 0, 0, 0⟩
      | some bd => ⟨true, bd.linux.length, now - mtime, mtime⟩

/-- Go `Cache.loadMeta`: the sidecar's map, or an empty map when the file
is absent (or unreadable). -/
def loadMeta (st : CacheState) : List (String × SourceMeta) :=
  st.sidecar.getD []

/-- Go `Cache.loadExistingBanners`: decode the current primary artifact,
`nil` when absent or undecodable. -/
def loadExistingBanners (st : CacheState) : Option BannerData :=
  match st.primary with
  | none => none
  | some (_, none) => none
  | some (_, some j) => unmarshalBannerData j

/-- Whether a lock file exists whose age is below the staleness
threshold. -/
def lockFresh (st : CacheState) (now : Int) : Bool :=
  match st.lock with
  | none => false
  | some lf => decide (now - lf.mtime < lockTimeout)

/-- Go `Cache.acquireLock`: fail with `Locked` while a fresh lock exists;
otherwise delete any stale lock and create the lock file containing the
current process identifier, mode 0644. -/
def acquireLock (st : CacheState) (now : Int) (pid : Nat) : Except CacheError CacheState :=
  match st.lock with
  | some lf =>
    if now - lf.mtime < lockTimeout then Except.error CacheError.locked
    else Except.ok { st with lock := some ⟨now, toString pid, 0o644⟩ }
  | none => Except.ok { st with lock := some ⟨now, toString pid, 0o644⟩ }

/-- Go `Cache.releaseLock`: remove the lock file unconditionally. -/
def releaseLock (st : CacheState) : CacheState :=
  { st with lock := none }

/-- One per-source fetch outcome as the parallel driver reports it
(Go `fetcher.Result`); `err` models `Err != nil`. -/
structure FetchResult where
  source : String
  data : Option BannerData
  meta : Option SourceMeta
  modified : Bool
  err : Bool

/-- Reading `meta.Sources[s]` from the modelled sidecar map. -/
def lookupMeta : List (String × SourceMeta) → String → Option SourceMeta
  | [], _ => none
  | p :: ps, s => if p.1 = s then some p.2 else lookupMeta ps s

/-- Writing `meta.Sources[s] = m` into the modelled sidecar map. -/
def insertMeta : List (String × SourceMeta) → String → SourceMeta → List (String × SourceMeta)
  | [], s, m => [(s, m)]
  | p :: ps, s, m => if p.1 = s then (s, m) :: ps else p :: insertMeta ps s m

/-- One iteration of `SmartUpdate`'s loop, restricted to its effect on
`newMeta`: a failed source carries its prior validator forward (when one
exists); a successful source records the validators it returned. -/
def metaStep (old : List (String × SourceMeta)) (acc : List (String × SourceMeta))
    (r : FetchResult) : List (String × SourceMeta) :=
  if r.err then
    match lookupMeta old r.source with
    | some sm => insertMeta acc r.source sm
    | none => acc
  else
    match r.meta with
    | some sm => insertMeta acc r.source sm
    | none => acc

/-- One iteration of `SmartUpdate`'s loop, restricted to its effect on
`datasets`: a failed source contributes nothing; a modified source with
data contributes its document; an unmodified source contributes the
currently cached document when it decodes. -/
def contrib (st : CacheState) (r : FetchResult) : List BannerData :=
  if r.err then []
  else if r.modified then
    match r.data with
    | some d => [d]
    | none => []
  else
    match loadExistingBanners st with
    | some d => [d]
    | none => []

/-- The sidecar map `SmartUpdate` writes. -/
def smartNewMeta (st : CacheState) (results : List FetchResult) :
    List (String × SourceMeta) :=
  results.foldl (metaStep (loadMeta st)) []

/-- The `datasets` slice `SmartUpdate` accumulates, in result order. -/
def smartDatasets (st : CacheState) (results : List FetchResult) : List BannerData :=
  (results.map (contrib st)).flatten

/-- Go's `anyModified` flag: set exactly when a non-failed result has
`Modified` and non-nil data. -/
def anyModifiedFlag (results : List FetchResult) : Bool :=
  results.any (fun r => !r.err && r.modified && r.data.isSome)

/-- Go `Cache.SmartUpdate` with the per-source fetch outcomes supplied as
an oracle.  Returns the new state and the Go pair `(updated, err)`.
Acquires the lock (surfacing `Locked`), always writes the new sidecar,
skips the rewrite only when nothing was modified and the primary is still
fresh, fails with `AllSourcesFailed` when nothing contributed, otherwise
atomically replaces the primary with the merge; the lock is released on
every exit path. -/
def smartUpdate (st : CacheState) (results : List FetchResult) (now ttl : Int) (pid : Nat) :
    CacheState × Bool × Option CacheError :=
  match acquireLock st now pid with
  | Except.error e => (st, false, some e)
  | Except.ok st1 =>
    if !anyModifiedFlag results &&
        isValid { st1 with sidecar := some (smartNewMeta st1 results) } now ttl then
      (releaseLock { st1 with sidecar := some (smartNewMeta st1 results) }, false, none)
    else if smartDatasets st1 results = [] then
      (releaseLock { st1 with sidecar := some (smartNewMeta st1 results) }, false,
       some CacheError.allSourcesFailed)
    else
      (releaseLock
        { st1 with
            sidecar := some (smartNewMeta st1 results),
            primary := some (now, some (encodeBannerData
              (Merge ((smartDatasets st1 results).map some)))) },
       anyModifiedFlag results, none)

/-- Go `Cache.Update` with the fetch outcomes supplied as an oracle.
Skips when not forced and the cache is valid; otherwise locks, drops
failed sources, fails with `AllSourcesFailed` when zero datasets remain
(note: a non-failed result contributes its `Data` pointer even when nil),
else publishes the merge.  The sidecar is never touched. -/
def update (st : CacheState) (results : List FetchResult) (now ttl : Int) (force : Bool)
    (pid : Nat) : CacheState × Option CacheError :=
  if !force && isValid st now ttl then (st, none)
  else
    match acquireLock st now pid with
    | Except.error e => (st, some e)
    | Except.ok st1 =>
      if results.filterMap (fun r => if r.err then none else some r.data) = [] then
        (releaseLock st1, some CacheError.allSourcesFailed)
      else
        (releaseLock
          { st1 with
              primary := some (now, some (encodeBannerData
                (Merge (results.filterMap (fun r => if r.err then none else some r.data))))) },
         none)

/-! ## Concrete states used by witnesses and counterexamples -/

/-- A small decodable banner document used in concrete scenarios. -/
def docW : BannerData := ⟨1, [("b", ["u"])]⟩

/-- Its JSON encoding, the contents of a freshly written primary. -/
def jsonW : Json := encodeBannerData docW

/-- A prior validator record for source `"s"`. -/
def metaOldW : SourceMeta := ⟨"e1", "", 0⟩

/-- A fresh validator record as a 200 response would yield it. -/
def metaNewW : SourceMeta := ⟨"e2", "", 50⟩

/-- State whose primary (mtime 0) decodes, with a sidecar entry for
`"s"` and no lock. -/
def stDecodable : CacheState :=
  ⟨some (0, some jsonW), some [("s", metaOldW)], none⟩

/-- A 304 result for source `"s"`: no data, prior validators echoed,
not modified, no error. -/
def res304 : FetchResult := ⟨"s", none, some metaOldW, false, false⟩

/-- A failed result for source `"s"`. -/
def resErr : FetchResult := ⟨"s", none, none, false, true⟩

/-- A 200 result for source `"s"` carrying `docW` and fresh validators. -/
def res200 : FetchResult := ⟨"s", some docW, some metaNewW, true, false⟩

/-- State with an existing primary whose bytes are not valid JSON. -/
def stGarbage : CacheState := ⟨some (0, none), none, none⟩

/-- State with a primary containing the JSON literal `null` (mtime 2). -/
def stNullDoc : CacheState := ⟨some (2, some Json.null), none, none⟩

/-- State with no files at all. -/
def stEmpty : CacheState := ⟨none, none, none⟩

/-- State with only a stale lock file (mtime 0). -/
def stStaleLock : CacheState := ⟨none, none, some ⟨0, "9", 0o644⟩⟩

/-- Prior validators with both fields non-empty, for the fetch claim. -/
def metaBothW : SourceMeta := ⟨"abc", "lm", 0⟩

/-- A 304 response. -/
def resp304W : HttpResponse := ⟨304, "", "", none⟩

theorem appendUnique_nil (existing : List String) : appendUnique existing [] = existing := rfl

theorem appendUnique_append (l1 l2 existing : List String) :
    appendUnique existing (l1 ++ l2) = appendUnique (appendUnique existing l1) l2 := by
  induction l1 generalizing existing with
  | nil => rfl
  | cons v vs ih =>
    simp only [List.cons_append, appendUnique]
    by_cases h : v ∈ existing
    · simp only [h, if_true]; exact ih existing
    · simp only [h, if_false]; exact ih (existing ++ [v])

theorem appendUnique_of_subset (l existing : List String)
    (h : ∀ v ∈ l, v ∈ existing) : appendUnique existing l = existing := by
  induction l with
  | nil => rfl
  | cons v vs ih =>
    have hv : v ∈ existing := h v (List.mem_cons_self v vs)
    simp only [appendUnique, hv, if_pos]
    exact ih fun x hx => h x (List.mem_cons_of_mem v hx)

theorem appendUnique_eq_append (l acc : List String) :
    appendUnique acc l = acc ++ newOnes acc l := by
  induction l generalizing acc with
  | nil => simp [appendUnique, newOnes]
  | cons v vs ih =>
    simp only [appendUnique, newOnes]
    by_cases h : v ∈ acc
    · simp only [h, if_pos, ih]
    · simp only [h, if_neg, if_false, ih (acc ++ [v])]
      simp

theorem appendUnique_newOnes (l : List String) :
    ∀ pre acc : List String, (∀ v ∈ pre, v ∈ acc) →
      appendUnique acc (newOnes pre l) = appendUnique acc l := by
  induction l with
  | nil => intro pre acc _; rfl
  | cons v vs ih =>
    intro pre acc hsub
    by_cases hp : v ∈ pre
    · simp only [newOnes, hp, if_pos]
      rw [ih pre acc hsub]
      simp only [appendUnique, hsub v hp, if_pos]
    · simp only [newOnes, hp, if_neg, if_false]
      by_cases ha : v ∈ acc
      · simp only [appendUnique, ha, if_pos]
        refine ih (pre ++ [v]) acc ?_
        intro x hx
        rcases List.mem_append.mp hx with h1 | h1
        · exact hsub x h1
        · have hxv : x = v := List.mem_singleton.mp h1
          subst hxv; exact ha
      · simp only [appendUnique, ha, if_neg, if_false]
        refine ih (pre ++ [v]) (acc ++ [v]) ?_
        intro x hx
        rcases List.mem_append.mp hx with h1 | h1
        · exact List.mem_append.mpr (Or.inl (hsub x h1))
        · exact List.mem_append.mpr (Or.inr h1)

/-- Re-deduplicating an already deduplicated list changes nothing when it
is appended onto any accumulator. -/
theorem appendUnique_dedup (acc y : List String) :
    appendUnique acc (appendUnique [] y) = appendUnique acc y := by
  have h : appendUnique [] y = newOnes [] y := by
    simpa using appendUnique_eq_append y []
  rw [h]
  exact appendUnique_newOnes y [] acc (by intro v hv; cases hv)

theorem appendUnique_nodup (l : List String) :
    ∀ existing : List String, existing.Nodup → (appendUnique existing l).Nodup := by
  induction l with
  | nil => intro existing h; exact h
  | cons v vs ih =>
    intro existing h
    by_cases hv : v ∈ existing
    · simpa only [appendUnique, hv, if_pos] using ih existing h
    · simp only [appendUnique, hv, if_neg, if_false]
      refine ih (existing ++ [v]) ?_
      simp [List.nodup_append, h, hv]

theorem appendUnique_sublist (l : List String) :
    ∀ existing : List String, List.Sublist (appendUnique existing l) (existing ++ l) := by
  induction l with
  | nil => intro existing; simp [appendUnique]
  | cons v vs ih =>
    intro existing
    by_cases hv : v ∈ existing
    · simp only [appendUnique, hv, if_pos]
      exact (ih existing).trans (List.Sublist.append_left (List.sublist_cons_self v vs) existing)
    · simp only [appendUnique, hv, if_neg, if_false]
      have := ih (existing ++ [v])
      simpa [List.append_assoc] using this

theorem lookupBanner_setBanner_self (m : List (String × List String)) (k : String)
    (v : List String) : lookupBanner (setBanner m k v) k = v := by
  induction m with
  | nil => simp [setBanner, lookupBanner]
  | cons p ps ih =>
    by_cases h : p.1 = k
    · simp [setBanner, h, lookupBanner]
    · simp [setBanner, h, lookupBanner, ih]

theorem lookupBanner_setBanner_ne (m : List (String × List String)) (k b : String)
    (v : List String) (hne : b ≠ k) :
    lookupBanner (setBanner m k v) b = lookupBanner m b := by
  induction m with
  | nil =>
    simp only [setBanner, lookupBanner]
    rw [if_neg (fun hh => hne hh.symm)]
  | cons p ps ih =>
    by_cases h : p.1 = k
    · subst h
      simp only [setBanner, if_pos rfl, lookupBanner]
      rw [if_neg (fun hh => hne hh.symm), if_neg (fun hh => hne hh.symm)]
    · simp only [setBanner, h, if_false, lookupBanner, ih]

theorem lookupBanner_foldl_mergeStep (pairs : List (String × List String)) :
    ∀ (m : List (String × List String)) (b : String),
      lookupBanner (pairs.foldl mergeStep m) b =
        appendUnique (lookupBanner m b) (entriesFor pairs b) := by
  induction pairs with
  | nil => intro m b; rfl
  | cons p ps ih =>
    intro m b
    simp only [List.foldl_cons, entriesFor]
    rw [ih (mergeStep m p) b]
    by_cases h : p.1 = b
    · rw [mergeStep, h, lookupBanner_setBanner_self, ← appendUnique_append]
      simp [h]
    · rw [mergeStep, lookupBanner_setBanner_ne _ _ _ _ (fun hh => h hh.symm)]
      simp [h]

theorem lookupBanner_foldl_mergeInto (ds : List (Option BannerData)) :
    ∀ (m : List (String × List String)) (b : String),
      lookupBanner (ds.foldl mergeInto m) b =
        appendUnique (lookupBanner m b) (entriesFor (pairsOf ds) b) := by
  induction ds with
  | nil => intro m b; rfl
  | cons od ds ih =>
    intro m b
    cases od with
    | none => simpa [pairsOf] using ih m b
    | some d =>
      simp only [List.foldl_cons, mergeInto, pairsOf]
      rw [ih (d.linux.foldl mergeStep m) b, lookupBanner_foldl_mergeStep]
      rw [← appendUnique_append]
      congr 1
      induction d.linux with
      | nil => simp [entriesFor]
      | cons q qs ihq => simp [entriesFor, ihq, List.append_assoc]

theorem entriesFor_append (xs ys : List (String × List String)) (b : String) :
    entriesFor (xs ++ ys) b = entriesFor xs b ++ entriesFor ys b := by
  induction xs with
  | nil => simp [entriesFor]
  | cons p ps ih => simp [entriesFor, ih, List.append_assoc]

/-- The banner list of a merged document: first-occurrence deduplication of
the concatenated per-banner inputs, in input order. -/
theorem lookupBanner_Merge (ds : List (Option BannerData)) (b : String) :
    lookupBanner (Merge ds).linux b = appendUnique [] (entriesFor (pairsOf ds) b) := by
  simpa [Merge, lookupBanner] using lookupBanner_foldl_mergeInto ds [] b

theorem setBanner_keys (m : List (String × List String)) (k : String) (v : List String) :
    (setBanner m k v).map Prod.fst =
      if k ∈ m.map Prod.fst then m.map Prod.fst else m.map Prod.fst ++ [k] := by
  induction m with
  | nil => simp [setBanner]
  | cons p ps ih =>
    by_cases h : p.1 = k
    · simp [setBanner, h]
    · have h2 : ¬ k = p.1 := fun hh => h hh.symm
      by_cases hk : k ∈ ps.map Prod.fst
      · simp [setBanner, h, ih, List.mem_cons, h2, hk]
      · simp [setBanner, h, ih, List.mem_cons, h2, hk]

theorem setBanner_keys_nodup (m : List (String × List String)) (k : String) (v : List String)
    (h : (m.map Prod.fst).Nodup) : ((setBanner m k v).map Prod.fst).Nodup := by
  rw [setBanner_keys]
  by_cases hk : k ∈ m.map Prod.fst
  · simpa [hk] using h
  · simp only [hk, if_false]
    simp [List.nodup_append, h, hk]

theorem foldl_mergeStep_keys_nodup (pairs : List (String × List String)) :
    ∀ m : List (String × List String), (m.map Prod.fst).Nodup →
      ((pairs.foldl mergeStep m).map Prod.fst).Nodup := by
  induction pairs with
  | nil => intro m h; exact h
  | cons p ps ih =>
    intro m h
    exact ih (mergeStep m p) (setBanner_keys_nodup m p.1 _ h)

theorem Merge_keys_nodup (ds : List (Option BannerData)) :
    ((Merge ds).linux.map Prod.fst).Nodup := by
  have main : ∀ (l : List (Option BannerData)) (m : List (String × List String)),
      (m.map Prod.fst).Nodup → ((l.foldl mergeInto m).map Prod.fst).Nodup := by
    intro l
    induction l with
    | nil => intro m h; exact h
    | cons od ds ih =>
      intro m h
      cases od with
      | none => exact ih m h
      | some d => exact ih _ (foldl_mergeStep_keys_nodup d.linux m h)
  simpa [Merge] using main ds [] (by simp)

theorem entriesFor_eq_nil_of_not_mem (m : List (String × List String)) (b : String)
    (h : b ∉ m.map Prod.fst) : entriesFor m b = [] := by
  induction m with
  | nil => rfl
  | cons p ps ih =>
    simp only [List.map_cons, List.mem_cons] at h
    push_neg at h
    have hne : ¬ p.1 = b := fun hh => h.1 hh.symm
    simp only [entriesFor, if_neg hne, List.nil_append]
    exact ih h.2

theorem entriesFor_eq_lookupBanner (m : List (String × List String)) (b : String)
    (h : (m.map Prod.fst).Nodup) : entriesFor m b = lookupBanner m b := by
  induction m with
  | nil => rfl
  | cons p ps ih =>
    simp only [List.map_cons, List.nodup_cons] at h
    by_cases hb : p.1 = b
    · subst hb
      simp only [entriesFor, if_pos rfl, lookupBanner]
      rw [entriesFor_eq_nil_of_not_mem ps p.1 h.1]
      simp
    · simp only [entriesFor, if_neg hb, lookupBanner, List.nil_append]
      exact ih h.2

/-- Claim C1: `Merge` skips nil inputs, fixes the output version at 1, and
for each banner appends each URL from the inputs (in input order) only if
not already present, under string equality; hence each banner's merged URL
list is exactly the first-occurrence deduplication of the concatenated
inputs, has no duplicates, and preserves first-seen order (it is a sublist
of the concatenated inputs). -/
theorem merge_dedup_first_seen (ds : List (Option BannerData)) (b : String) :
    (Merge ds).version = 1 ∧
    Merge ((none : Option BannerData) :: ds) = Merge ds ∧
    lookupBanner (Merge ds).linux b = appendUnique [] (entriesFor (pairsOf ds) b) ∧
    (lookupBanner (Merge ds).linux b).Nodup ∧
    List.Sublist (lookupBanner (Merge ds).linux b) (entriesFor (pairsOf ds) b) := by
  refine ⟨rfl, rfl, lookupBanner_Merge ds b, ?_, ?_⟩
  · rw [lookupBanner_Merge]
    exact appendUnique_nodup _ [] List.nodup_nil
  · rw [lookupBanner_Merge]
    simpa using appendUnique_sublist (entriesFor (pairsOf ds) b) []

theorem lookupMeta_insertMeta_self (m : List (String × SourceMeta)) (k : String)
    (v : SourceMeta) : lookupMeta (insertMeta m k v) k = some v := by
  induction m with
  | nil => simp [insertMeta, lookupMeta]
  | cons p ps ih =>
    by_cases h : p.1 = k
    · simp [insertMeta, h, lookupMeta]
    · simp [insertMeta, h, lookupMeta, ih]

theorem lookupMeta_insertMeta_ne (m : List (String × SourceMeta)) (k s : String)
    (v : SourceMeta) (hne : s ≠ k) :
    lookupMeta (insertMeta m k v) s = lookupMeta m s := by
  induction m with
  | nil =>
    simp only [insertMeta, lookupMeta]
    rw [if_neg (fun hh => hne hh.symm)]
  | cons p ps ih =>
    by_cases h : p.1 = k
    · subst h
      simp only [insertMeta, if_pos rfl, lookupMeta]
      rw [if_neg (fun hh => hne hh.symm), if_neg (fun hh => hne hh.symm)]
    · simp only [insertMeta, h, if_false, lookupMeta, ih]

theorem lookupMeta_metaStep_ne (old acc : List (String × SourceMeta)) (x : FetchResult)
    (t : String) (hne : x.source ≠ t) :
    lookupMeta (metaStep old acc x) t = lookupMeta acc t := by
  have hne' : t ≠ x.source := fun hh => hne hh.symm
  by_cases he : x.err = true
  · simp only [metaStep, he, if_true]
    cases hcase : lookupMeta old x.source with
    | none => rfl
    | some sm => exact lookupMeta_insertMeta_ne acc x.source t sm hne'
  · simp only [metaStep, he, if_false]
    cases hcase : x.meta with
    | none => rfl
    | some sm => exact lookupMeta_insertMeta_ne acc x.source t sm hne'

theorem lookupMeta_foldl_metaStep_ne (old : List (String × SourceMeta))
    (rs : List FetchResult) :
    ∀ (acc : List (String × SourceMeta)) (t : String), (∀ x ∈ rs, x.source ≠ t) →
      lookupMeta (rs.foldl (metaStep old) acc) t = lookupMeta acc t := by
  induction rs with
  | nil => intro acc t _; rfl
  | cons x xs ih =>
    intro acc t h
    rw [List.foldl_cons, ih _ t (fun y hy => h y (List.mem_cons_of_mem x hy)),
      lookupMeta_metaStep_ne old acc x t (h x (List.mem_cons_self x xs))]

theorem lookupMeta_foldl_metaStep_err (old0 : List (String × SourceMeta))
    (rs : List FetchResult) :
    ∀ (acc : List (String × SourceMeta)) (r : FetchResult), r ∈ rs →
      (rs.map FetchResult.source).Nodup → r.err = true →
      ∀ sm : SourceMeta, lookupMeta old0 r.source = some sm →
        lookupMeta (rs.foldl (metaStep old0) acc) r.source = some sm := by
  induction rs with
  | nil => intro acc r hr; cases hr
  | cons x xs ih =>
    intro acc r hr hnd herr sm hsm
    rw [List.foldl_cons]
    rcases List.mem_cons.mp hr with h1 | h1
    · subst h1
      have hstep : metaStep old0 acc r = insertMeta acc r.source sm := by
        simp only [metaStep, herr, if_true, hsm]
      rw [hstep]
      have hnot : ∀ y ∈ xs, y.source ≠ r.source := by
        simp only [List.map_cons, List.nodup_cons] at hnd
        intro y hy hcontra
        exact hnd.1 (hcontra ▸ List.mem_map_of_mem FetchResult.source hy)
      rw [lookupMeta_foldl_metaStep_ne old0 xs _ _ hnot]
      exact lookupMeta_insertMeta_self acc r.source sm
    · have hnd2 : (xs.map FetchResult.source).Nodup := by
        simp only [List.map_cons, List.nodup_cons] at hnd
        exact hnd.2
      exact ih (metaStep old0 acc x) r h1 hnd2 herr sm hsm

theorem acquireLock_ok_fields (st : CacheState) (now : Int) (pid : Nat) (st1 : CacheState)
    (h : acquireLock st now pid = Except.ok st1) :
    st1.sidecar = st.sidecar ∧ st1.primary = st.primary := by
  cases hl : st.lock with
  | none =>
    simp only [acquireLock, hl, Except.ok.injEq] at h
    rw [← h]
    exact ⟨rfl, rfl⟩
  | some lf =>
    simp only [acquireLock, hl] at h
    by_cases hc : now - lf.mtime < lockTimeout
    · rw [if_pos hc] at h
      exact Except.noConfusion h
    · rw [if_neg hc] at h
      simp only [Except.ok.injEq] at h
      rw [← h]
      exact ⟨rfl, rfl⟩

theorem updateDatasets_eq_nil_iff (results : List FetchResult) :
    results.filterMap (fun r => if r.err then none else some r.data) = [] ↔
      ∀ r ∈ results, r.err = true := by
  induction results with
  | nil => simp
  | cons r rs ih =>
    by_cases h : r.err = true
    · simp [List.filterMap_cons, h, ih]
    · simp [List.filterMap_cons, h]

/-- Reduction of `smartUpdate` when no lock file exists: the lock is
acquired and released, and only the freshness and dataset checks remain. -/
theorem smartUpdate_unlocked_eq (p : Option (Int × Option Json))
    (s : Option (List (String × SourceMeta))) (results : List FetchResult)
    (now ttl : Int) (pid : Nat) :
    smartUpdate (CacheState.mk p s none) results now ttl pid =
      (if !anyModifiedFlag results && validPrimary p now ttl then
        (CacheState.mk p (some (smartNewMeta (CacheState.mk p s none) results)) none,
         false, none)
       else if smartDatasets (CacheState.mk p s none) results = [] then
        (CacheState.mk p (some (smartNewMeta (CacheState.mk p s none) results)) none,
         false, some CacheError.allSourcesFailed)
       else
        (CacheState.mk
           (some (now, some (encodeBannerData
             (Merge ((smartDatasets (CacheState.mk p s none) results).map some)))))
           (some (smartNewMeta (CacheState.mk p s none) results)) none,
         anyModifiedFlag results, none)) := rfl

/-- Claim C8: merging `[a, Merge [b, c]]` yields the same version and the
same banner-to-URL-list mapping as merging `[a, b, c]` directly. -/
theorem Merge_assoc (a b c : BannerData) :
    (Merge [some a, some (Merge [some b, some c])]).version =
      (Merge [some a, some b, some c]).version ∧
    ∀ k : String,
      lookupBanner (Merge [some a, some (Merge [some b, some c])]).linux k =
        lookupBanner (Merge [some a, some b, some c]).linux k := by
  refine ⟨rfl, fun k => ?_⟩
  have hpairsL : pairsOf [some a, some (Merge [some b, some c])] =
      a.linux ++ (Merge [some b, some c]).linux := by
    simp [pairsOf]
  have hpairsR : pairsOf [some a, some b, some c] = a.linux ++ (b.linux ++ c.linux) := by
    simp [pairsOf]
  have hpbc : pairsOf [some b, some c] = b.linux ++ c.linux := by
    simp [pairsOf]
  rw [lookupBanner_Merge, lookupBanner_Merge, hpairsL, hpairsR,
    entriesFor_append a.linux (Merge [some b, some c]).linux k,
    entriesFor_append a.linux (b.linux ++ c.linux) k,
    entriesFor_eq_lookupBanner _ k (Merge_keys_nodup [some b, some c]),
    lookupBanner_Merge, hpbc]
  rw [appendUnique_append, appendUnique_dedup, ← appendUnique_append]

/-- Claim C7: with supplied prior validators, a non-empty entity tag is
sent as the `If-None-Match` header and a non-empty last-modified string as
the `If-Modified-Since` header; and on a 304 response the fetch returns no
data, the caller's prior validators unchanged, `modified = false`, and no
error. -/
theorem fetch_conditional_304 (m : SourceMeta) :
    (m.etag ≠ "" → ("If-None-Match", m.etag) ∈ requestHeaders (some m)) ∧
    (m.lastModified ≠ "" →
      ("If-Modified-Since", m.lastModified) ∈ requestHeaders (some m)) ∧
    (∀ (resp : HttpResponse) (now : Int), resp.status = 304 →
      fetchHTTPWithMeta (some m) resp now = (none, some m, false, none)) := by
  refine ⟨?_, ?_, ?_⟩
  · intro h
    simp [requestHeaders, h]
  · intro h
    by_cases he : m.etag = "" <;> simp [requestHeaders, he, h]
  · intro resp now h
    simp [fetchHTTPWithMeta, h]

/-- Witness for C7 at concrete validators and a concrete 304 response. -/
theorem fetch_conditional_304_witness :
    ("If-None-Match", "abc") ∈ requestHeaders (some metaBothW) ∧
    ("If-Modified-Since", "lm") ∈ requestHeaders (some metaBothW) ∧
    fetchHTTPWithMeta (some metaBothW) resp304W 5 = (none, some metaBothW, false, none) :=
  ⟨(fetch_conditional_304 metaBothW).1 (by decide),
   (fetch_conditional_304 metaBothW).2.1 (by decide),
   (fetch_conditional_304 metaBothW).2.2 resp304W 5 rfl⟩

/-- Claim C5: `acquireLock` fails with `Locked` iff the lock file exists
with mtime younger than the 5-minute threshold; when the lock is absent or
stale it deletes any stale lock and creates the lock file containing the
process identifier, mode 0644, and succeeds; `releaseLock` removes the
lock file unconditionally and a double release is a no-op. -/
theorem acquireLock_releaseLock_spec (st : CacheState) (now : Int) (pid : Nat) :
    (acquireLock st now pid = Except.error CacheError.locked ↔
      ∃ lf, st.lock = some lf ∧ now - lf.mtime < lockTimeout) ∧
    (lockFresh st now = false →
      acquireLock st now pid =
        Except.ok { st with lock := some ⟨now, toString pid, 0o644⟩ }) ∧
    (releaseLock st).lock = none ∧
    releaseLock (releaseLock st) = releaseLock st := by
  refine ⟨?_, ?_, rfl, rfl⟩
  · cases hl : st.lock with
    | none => simp [acquireLock, hl]
    | some lf =>
      by_cases hc : now - lf.mtime < lockTimeout
      · simp [acquireLock, hl, hc]
      · simp [acquireLock, hl, hc]
  · intro h
    cases hl : st.lock with
    | none => simp [acquireLock, hl]
    | some lf =>
      simp only [lockFresh, hl, decide_eq_false_iff_not] at h
      simp [acquireLock, hl, h]

/-- Witness for C5: a stale lock (age 1000 s) is overridden. -/
theorem acquireLock_releaseLock_witness :
    acquireLock stStaleLock 1000 42 =
      Except.ok { stStaleLock with lock := some ⟨1000, toString 42, 0o644⟩ } ∧
    (releaseLock stStaleLock).lock = none :=
  ⟨(acquireLock_releaseLock_spec stStaleLock 1000 42).2.1 (by decide),
   (acquireLock_releaseLock_spec stStaleLock 1000 42).2.2.1⟩

/-- Claim C4: `update(force=true)` fails with `AllSourcesFailed` iff every
fetch result carries an error (vacuously so for the empty source list),
and then the state — the primary artifact included — is untouched; when at
least one source succeeds the call succeeds and publishes the merge of the
surviving documents. -/
theorem update_force_allSourcesFailed (st : CacheState) (results : List FetchResult)
    (now ttl : Int) (pid : Nat) (hlock : st.lock = none) :
    ((update st results now ttl true pid).2 = some CacheError.allSourcesFailed ↔
      ∀ r ∈ results, r.err = true) ∧
    ((∀ r ∈ results, r.err = true) → (update st results now ttl true pid).1 = st) ∧
    ((∃ r ∈ results, r.err = false) →
      (update st results now ttl true pid).2 = none ∧
      (update st results now ttl true pid).1.primary =
        some (now, some (encodeBannerData
          (Merge (results.filterMap (fun r => if r.err then none else some r.data)))))) := by
  obtain ⟨p, s, l⟩ := st
  have hl : l = none := hlock
  subst hl
  have hred : update (CacheState.mk p s none) results now ttl true pid =
      (if results.filterMap (fun r => if r.err then none else some r.data) = [] then
        (CacheState.mk p s none, some CacheError.allSourcesFailed)
       else
        (CacheState.mk
           (some (now, some (encodeBannerData
             (Merge (results.filterMap (fun r => if r.err then none else some r.data))))))
           s none,
         none)) := rfl
  by_cases hF : results.filterMap (fun r => if r.err then none else some r.data) = []
  · rw [hred, if_pos hF]
    refine ⟨iff_of_true rfl ((updateDatasets_eq_nil_iff results).mp hF), fun _ => rfl, ?_⟩
    rintro ⟨r, hr, hre⟩
    have hrt := (updateDatasets_eq_nil_iff results).mp hF r hr
    rw [hrt] at hre
    exact Bool.noConfusion hre
  · rw [hred, if_neg hF]
    refine ⟨?_, ?_, fun _ => ⟨rfl, rfl⟩⟩
    · constructor
      · intro h
        exact Option.noConfusion h
      · intro h
        exact absurd ((updateDatasets_eq_nil_iff results).mpr h) hF
    · intro h
      exact absurd ((updateDatasets_eq_nil_iff results).mpr h) hF

/-- Witness for C4: a single failing source gives `AllSourcesFailed` with
the state untouched. -/
theorem update_force_allSourcesFailed_witness :
    (update stEmpty [resErr] 10 5 true 1).1 = stEmpty ∧
    (update stEmpty [resErr] 10 5 true 1).2 = some CacheError.allSourcesFailed :=
  ⟨(update_force_allSourcesFailed stEmpty [resErr] 10 5 1 rfl).2.1 (by decide),
   (update_force_allSourcesFailed stEmpty [resErr] 10 5 1 rfl).1.mpr (by decide)⟩

/-- Claim C9 counterexample: a successful forced update does not record the
fresh validators of its 200 response — the sidecar still holds the old
record, so the claim that it is overwritten is false. -/
theorem update_sidecar_counterexample :
    res200.err = false ∧ res200.meta = some metaNewW ∧
    (update stDecodable [res200] 50 100 true 3).2 = none ∧
    (update stDecodable [res200] 50 100 true 3).1.sidecar = some [("s", metaOldW)] ∧
    metaOldW ≠ metaNewW := by
  refine ⟨rfl, rfl, rfl, rfl, by decide⟩

/-- Claim C9 (amended): `update` never touches the metadata sidecar — the
previously stored per-source validators persist, and only `smartUpdate`
rewrites the sidecar. -/
theorem update_preserves_sidecar (st : CacheState) (results : List FetchResult)
    (now ttl : Int) (force : Bool) (pid : Nat) :
    (update st results now ttl force pid).1.sidecar = st.sidecar := by
  unfold update
  split
  · rfl
  · split
    · rfl
    · next st1 heq =>
      have hs := (acquireLock_ok_fields st now pid st1 heq).1
      split
      · simpa [releaseLock] using hs
      · simpa [releaseLock] using hs

/-- Claim C2 counterexample: with the single source reporting 304 (no
error, not modified) but a stale primary, `smartUpdate` rewrites the
primary — its mtime changes from 0 to 1000 — even though it returns
`(false, none)`; so the claim, which omits the freshness condition, is
false. -/
theorem smartUpdate_all304_counterexample :
    res304.err = false ∧ res304.modified = false ∧
    Option.map Prod.fst stDecodable.primary = some 0 ∧
    Option.map Prod.fst (smartUpdate stDecodable [res304] 1000 500 7).1.primary =
      some 1000 ∧
    (1000 : Int) ≠ 0 ∧
    (smartUpdate stDecodable [res304] 1000 500 7).2 = (false, none) := by
  refine ⟨rfl, rfl, rfl, ?_, by decide, ?_⟩ <;> rfl

/-- Claim C2 (amended): after a `smartUpdate` in which every source
reported not-modified and none reported modified, AND the primary artifact
is still fresh, the primary is not rewritten (unchanged, mtime included)
and the call returns `(false, none)`. -/
theorem smartUpdate_all304_fresh (st : CacheState) (results : List FetchResult)
    (now ttl : Int) (pid : Nat) (hlock : st.lock = none)
    (hall : ∀ r ∈ results, r.err = false ∧ r.modified = false)
    (hfresh : isValid st now ttl = true) :
    (smartUpdate st results now ttl pid).1.primary = st.primary ∧
    (smartUpdate st results now ttl pid).2 = (false, none) := by
  obtain ⟨p, s, l⟩ := st
  have hl : l = none := hlock
  subst hl
  have hany : anyModifiedFlag results = false := by
    rw [anyModifiedFlag, List.any_eq_false]
    intro r hr
    simp [(hall r hr).1, (hall r hr).2]
  have hvp : validPrimary p now ttl = true := hfresh
  rw [smartUpdate_unlocked_eq, hany, hvp]
  exact ⟨rfl, rfl⟩

/-- Witness for amended C2: a fresh primary with one 304 source. -/
theorem smartUpdate_all304_fresh_witness :
    (smartUpdate stDecodable [res304] 100 500 7).1.primary = stDecodable.primary ∧
    (smartUpdate stDecodable [res304] 100 500 7).2 = (false, none) :=
  smartUpdate_all304_fresh stDecodable [res304] 100 500 7 rfl (by decide) (by decide)

/-- Claim C6: for every source whose fetch fails during `smartUpdate`, its
prior validator record from the old sidecar, if one existed, is present
unchanged in the new sidecar written by the call, and the source
contributes no document to the merge. -/
theorem smartUpdate_failed_source_meta (st : CacheState) (results : List FetchResult)
    (now ttl : Int) (pid : Nat) (hlock : st.lock = none)
    (hnd : (results.map FetchResult.source).Nodup)
    (r : FetchResult) (hr : r ∈ results) (herr : r.err = true)
    (old : SourceMeta) (hold : lookupMeta (loadMeta st) r.source = some old) :
    (smartUpdate st results now ttl pid).1.sidecar = some (smartNewMeta st results) ∧
    lookupMeta (smartNewMeta st results) r.source = some old ∧
    contrib st r = [] := by
  obtain ⟨p, s, l⟩ := st
  have hl : l = none := hlock
  subst hl
  refine ⟨?_, ?_, ?_⟩
  · rw [smartUpdate_unlocked_eq]
    by_cases h1 : (!anyModifiedFlag results &&
        validPrimary p now ttl) = true
    · rw [if_pos h1]
    · rw [if_neg h1]
      by_cases h2 : smartDatasets (CacheState.mk p s none) results = []
      · rw [if_pos h2]
      · rw [if_neg h2]
  · exact lookupMeta_foldl_metaStep_err (loadMeta (CacheState.mk p s none)) results []
      r hr hnd herr old hold
  · simp [contrib, herr]

/-- Witness for C6: one failing source `"s"` whose old record survives. -/
theorem smartUpdate_failed_source_meta_witness :
    (smartUpdate stDecodable [resErr] 10 1000 1).1.sidecar =
      some (smartNewMeta stDecodable [resErr]) ∧
    lookupMeta (smartNewMeta stDecodable [resErr]) "s" = some metaOldW ∧
    contrib stDecodable resErr = [] :=
  smartUpdate_failed_source_meta stDecodable [resErr] 10 1000 1 rfl (by decide)
    resErr (List.mem_singleton.mpr rfl) rfl metaOldW (by decide)

/-- Claim C3 counterexample: a fresh primary whose bytes are not valid
JSON: stats reports valid=false, yet `IsValid` — which never inspects the
contents — returns true, contradicting the claim that it returns false. -/
theorem isValid_garbage_counterexample :
    stGarbage.primary.isSome = true ∧
    loadExistingBanners stGarbage = none ∧
    statsOf stGarbage 0 = ⟨false, 0, 0, 0⟩ ∧
    isValid stGarbage 0 100 = true := by
  refine ⟨rfl, rfl, rfl, by decide⟩

/-- Claim C3 (amended): if the primary artifact exists but its contents do
not decode as an index document, `stats` returns the all-zero record with
valid=false (Go returns `Stats{Valid: false}`; no exception exists to
propagate), while `isValid` ignores the contents entirely and returns
exactly the mtime-within-TTL check. -/
theorem stats_undecodable (st : CacheState) (now ttl mtime : Int) (c : Option Json)
    (hp : st.primary = some (mtime, c))
    (hdec : loadExistingBanners st = none) :
    statsOf st now = ⟨false, 0, 0, 0⟩ ∧
    isValid st now ttl = decide (now - mtime < ttl) := by
  constructor
  · cases c with
    | none => simp [statsOf, hp]
    | some j =>
      simp only [loadExistingBanners, hp] at hdec
      simp [statsOf, hp, hdec]
  · simp [isValid, validPrimary, hp]

/-- Witness for amended C3 at the garbage-content state. -/
theorem stats_undecodable_witness :
    statsOf stGarbage 0 = ⟨false, 0, 0, 0⟩ ∧
    isValid stGarbage 0 100 = decide ((0 : Int) - 0 < 100) :=
  stats_undecodable stGarbage 0 100 0 none rfl rfl

/-- Claim C10: `stats` reports valid=true for any primary whose contents
unmarshal without error — the JSON literal `null` and the empty object
both decode to the zero document (entries = 0) — and the decoded version
is never compared against 1: every version value decodes and is reported
valid. -/
theorem stats_valid_no_version_check (st : CacheState) (now mtime : Int) (j : Json)
    (bd : BannerData) (hp : st.primary = some (mtime, some j))
    (hdec : unmarshalBannerData j = some bd) :
    statsOf st now = ⟨true, bd.linux.length, now - mtime, mtime⟩ ∧
    unmarshalBannerData Json.null = some ⟨0, []⟩ ∧
    unmarshalBannerData (Json.obj []) = some ⟨0, []⟩ ∧
    ∀ v : Int, unmarshalBannerData (Json.obj [("version", Json.num v)]) = some ⟨v, []⟩ := by
  refine ⟨?_, rfl, rfl, fun v => rfl⟩
  simp [statsOf, hp, hdec]

/-- Witness for C10: a primary containing the JSON literal `null` is
reported valid with 0 entries, and version 99 decodes fine. -/
theorem stats_valid_no_version_check_witness :
    statsOf stNullDoc 5 = ⟨true, 0, 3, 2⟩ ∧
    unmarshalBannerData (Json.obj [("version", Json.num 99)]) = some ⟨99, []⟩ :=
  ⟨(stats_valid_no_version_check stNullDoc 5 2 Json.null ⟨0, []⟩ rfl rfl).1,
   (stats_valid_no_version_check stNullDoc 5 2 Json.null ⟨0, []⟩ rfl rfl).2.2.2 99⟩

end Basar
